import Mathlib

/-!
Verification of the RecordKeeper bet-parsing and closing-line
reconciliation engine.

The definitions below are a shallow embedding of the Python source:
pure helper functions of bot.py (classify_line, detect_bet_type_and_line,
extract_teams_key, build_event_key, parse_bet, american_to_prob,
calc_clv_for_bet) become Lean functions on strings and rationals, the
regular expressions used by the source are specialised to equivalent
recursive matchers with Python's leftmost-search and backtracking
semantics, and the reconciliation pass of clv.py becomes an explicit
state transformation on lists of rows.  Machine floats are modelled by
rationals (the source performs no rounding), SQL tables by lists of
records in insertion order, and fallible operations by Option.
-/

namespace RecordKeeper

/-! ## Python string primitives -/

/-- Characters stripped by Python `str.strip()` and matched by the regex
class `\s` (ASCII range). -/
def isPySpace (c : Char) : Bool :=
  c == ' ' || c == '\t' || c == '\n' || c == '\r' || c == '\x0b' || c == '\x0c'

/-- ASCII decimal digit, the `\d` class as used by the source's patterns. -/
def isDigitCh (c : Char) : Bool := c.isDigit

/-- ASCII letter, the `[A-Za-z]` class. -/
def isAlphaCh (c : Char) : Bool := c.isAlpha

/-- Word character for the `\b` boundary assertion (`[A-Za-z0-9_]`). -/
def isWordCh (c : Char) : Bool := c.isAlpha || c.isDigit || c == '_'

/-- Python `str.strip()` on a character list. -/
def pyStripList (cs : List Char) : List Char :=
  ((cs.dropWhile isPySpace).reverse.dropWhile isPySpace).reverse

/-- Python `str.strip()`. -/
def pyStrip (s : String) : String := ⟨pyStripList s.data⟩

/-- Python `str.lower()` restricted to ASCII case (the source's keywords
and regexes only involve ASCII letters). -/
def pyLower (s : String) : String := ⟨s.data.map Char.toLower⟩

/-- Does `pat` occur as a leading segment of `cs`? -/
def leadSeg : List Char → List Char → Bool
  | [], _ => true
  | _ :: _, [] => false
  | p :: ps, c :: cs => p == c && leadSeg ps cs

/-- Does `pat` occur as a contiguous segment of `cs`?  This is Python's
substring test `pat in cs`. -/
def hasSeg (pat : List Char) : List Char → Bool
  | [] => leadSeg pat []
  | c :: cs => leadSeg pat (c :: cs) || hasSeg pat cs

/-- Python substring containment `needle in hay`. -/
def pyIn (needle hay : String) : Bool := hasSeg needle.data hay.data

/-! ## Numbers -/

/-- Value of a list of decimal digit characters. -/
def natOfDigits (l : List Char) : ℕ :=
  l.foldl (fun a c => 10 * a + (c.toNat - 48)) 0

/-- Value of `ip.fp` as a rational, `ip` the integer digits and `fp` the
fractional digits; this is Python `float` on the strings produced by the
source's numeric regex groups (which are exact decimals). -/
def ratOfParts (ip fp : List Char) : ℚ :=
  mkRat (Int.ofNat (natOfDigits ip * 10 ^ fp.length + natOfDigits fp)) (10 ^ fp.length)

/-- Validator for the character tail of a Python integer literal after
its first digit: digits with single interior underscores. -/
def intTailOk : List Char → Bool
  | [] => true
  | '_' :: c :: rest => isDigitCh c && intTailOk rest
  | '_' :: [] => false
  | c :: rest => isDigitCh c && intTailOk rest

/-- Validator for the digit part of a Python integer string: nonempty,
starts with a digit, single interior underscores allowed. -/
def intDigitsOk : List Char → Bool
  | [] => false
  | c :: rest => isDigitCh c && intTailOk rest

/-- Python `int(s)` on strings: optional surrounding whitespace, optional
single sign, then digits (with optional interior underscores); any other
shape raises, modelled as `none`. -/
def parsePyInt (s : String) : Option ℤ :=
  match pyStripList s.data with
  | '+' :: rest =>
      if intDigitsOk rest then some ((natOfDigits (rest.filter isDigitCh) : ℤ)) else none
  | '-' :: rest =>
      if intDigitsOk rest then some (-(natOfDigits (rest.filter isDigitCh) : ℤ)) else none
  | rest =>
      if intDigitsOk rest then some ((natOfDigits (rest.filter isDigitCh) : ℤ)) else none

/-! ## CLV calculator (bot.py, american_to_prob and calc_clv_for_bet) -/

/-- bot.py `american_to_prob`: parse the odds string as an integer `o`
and return `100/(o+100)` when `o > 0`, else `-o/(-o+100)`; the bare
`except` on the `int` conversion is modelled by `none`. -/
def american_to_prob (odds : String) : Option ℚ :=
  match parsePyInt odds with
  | none => none
  | some o =>
      some (if o > 0 then (100 : ℚ) / ((o : ℚ) + 100) else (-(o : ℚ)) / (-(o : ℚ) + 100))

/-- Python truthiness of an optional string (`None` and `""` are falsy). -/
def pyTruthy : Option String → Bool
  | none => false
  | some s => !(s == "")

/-- bot.py `calc_clv_for_bet`.  Matches the source branch for branch:
moneyline converts both odds (guarded by truthiness) and subtracts the
implied probabilities; spread requires both lines and a side in
`{fav, dog}` and returns `abs(closing) - abs(posted)` in either branch;
total and prop require a side in `{over, under}` and return the signed
line difference; any other bet type yields `none`. -/
def calc_clv_for_bet (bet_type : String) (posted_line : Option ℚ) (posted_side : Option String)
    (posted_odds : Option String) (closing_line : Option ℚ) (closing_odds : Option String) :
    Option ℚ :=
  if bet_type = "moneyline" then
    let p_post := if pyTruthy posted_odds then american_to_prob (posted_odds.getD "") else none
    let p_close := if pyTruthy closing_odds then american_to_prob (closing_odds.getD "") else none
    match p_post, p_close with
    | some a, some b => some (b - a)
    | _, _ => none
  else if bet_type = "spread" then
    match posted_line, closing_line with
    | some pl, some cl =>
        if posted_side = some "fav" ∨ posted_side = some "dog" then
          if posted_side = some "fav" then some (|cl| - |pl|) else some (|cl| - |pl|)
        else none
    | _, _ => none
  else if bet_type = "total" ∨ bet_type = "prop" then
    match posted_line, closing_line with
    | some pl, some cl =>
        if posted_side = some "over" ∨ posted_side = some "under" then
          if posted_side = some "over" then some (cl - pl) else some (-(cl - pl))
        else none
    | _, _ => none
  else none

/-! ## Regex matchers of the parser (bot.py)

Each regular expression of the source is specialised to a recursive
matcher with the engine's leftmost-search and backtracking semantics;
the comments at each definition record the backtracking analysis. -/

/-- Match the units pattern `(\d+(\.\d+)?)\s*u` at the head of `cs` and
return the value of group 1.  The engine's backtracking never shortens
`\d+` or the fractional digits usefully (the next character would be a
digit, which is neither `.`, whitespace, nor `u`), so the maximal runs
are taken; after a failing fractional extension the fraction-free
capture is retried, and `\s*` shrinks to no avail because a retained
whitespace character is never `u`. -/
def unitsMatchAt (cs : List Char) : Option ℚ :=
  let ds := cs.takeWhile isDigitCh
  if ds.isEmpty then none
  else
    let rest := cs.dropWhile isDigitCh
    let withFrac : Option ℚ :=
      match rest with
      | c :: u =>
          if c = '.' then
            let fd := u.takeWhile isDigitCh
            if fd.isEmpty then none
            else
              match (u.dropWhile isDigitCh).dropWhile isPySpace with
              | c2 :: _ => if c2 = 'u' then some (ratOfParts ds fd) else none
              | [] => none
          else none
      | [] => none
    match withFrac with
    | some v => some v
    | none =>
        match rest.dropWhile isPySpace with
        | c2 :: _ => if c2 = 'u' then some (ratOfParts ds []) else none
        | [] => none

/-- Leftmost search with the units pattern. -/
def unitsSearch : List Char → Option ℚ
  | [] => none
  | c :: cs =>
      match unitsMatchAt (c :: cs) with
      | some v => some v
      | none => unitsSearch cs

/-- Match the odds pattern `([+-]\d{2,4})` at the head of `cs`: a sign
and then the greedy run of up to four digits, at least two. -/
def oddsMatchAt (cs : List Char) : Option String :=
  match cs with
  | c :: rest =>
      if c == '+' || c == '-' then
        let ds := (rest.takeWhile isDigitCh).take 4
        if ds.length ≥ 2 then some ⟨c :: ds⟩ else none
      else none
  | [] => none

/-- Leftmost search with the odds pattern. -/
def oddsSearch : List Char → Option String
  | [] => none
  | c :: cs =>
      match oddsMatchAt (c :: cs) with
      | some v => some v
      | none => oddsSearch cs

/-- Match `\s*([0-9]+(?:\.[0-9]+)?)` at the head of `cs` and return the
value of the group.  `\s*` is greedy and a retained whitespace character
is never a digit, so all whitespace is skipped; the digit runs are
maximal (nothing follows the group). -/
def totalNumAt (cs : List Char) : Option ℚ :=
  let w := cs.dropWhile isPySpace
  let ds := w.takeWhile isDigitCh
  if ds.isEmpty then none
  else
    match w.dropWhile isDigitCh with
    | c :: u =>
        if c = '.' then
          let fd := u.takeWhile isDigitCh
          if fd.isEmpty then some (ratOfParts ds []) else some (ratOfParts ds fd)
        else some (ratOfParts ds [])
    | [] => some (ratOfParts ds [])

/-- Match the totals pattern `(over|under|o/u)\s*([0-9]+(?:\.[0-9]+)?)`
at the head of `cs`, trying the alternatives of group 1 in the pattern's
order, and return (group 1, value of group 2). -/
def totalMatchAt (cs : List Char) : Option (String × ℚ) :=
  match (if leadSeg "over".data cs then
          (totalNumAt (cs.drop 4)).map (fun v => (("over" : String), v)) else none) with
  | some r => some r
  | none =>
      match (if leadSeg "under".data cs then
              (totalNumAt (cs.drop 5)).map (fun v => (("under" : String), v)) else none) with
      | some r => some r
      | none =>
          if leadSeg "o/u".data cs then
            (totalNumAt (cs.drop 3)).map (fun v => (("o/u" : String), v))
          else none

/-- Leftmost search with the totals pattern. -/
def totalSearch : List Char → Option (String × ℚ)
  | [] => none
  | c :: cs =>
      match totalMatchAt (c :: cs) with
      | some r => some r
      | none => totalSearch cs

/-- The `\b` assertion at a position whose preceding character is a word
character: it holds at end of input or before a non-word character. -/
def wordBreakAfter : List Char → Bool
  | [] => true
  | c :: _ => !(isWordCh c)

/-- Match group 2 of the spread pattern, `[+-]\d+(?:\.\d+)?\b`, at the
head of `cs`, in the engine's backtracking order: the greedy fractional
extension is tried before the fraction-free capture.  Shortening `\d+`
or the fractional digit run leaves the next character a digit, where
`\b` cannot hold, so only the maximal runs are viable; note that when
the fractional extension fails at `\b` the fraction-free capture still
succeeds, because the following `.` is a non-word character (this is how
`-3.5u` yields the capture `-3`). -/
def spreadNumAt (cs : List Char) : Option String :=
  match cs with
  | c :: rest =>
      if c == '+' || c == '-' then
        let ds := rest.takeWhile isDigitCh
        if ds.isEmpty then none
        else
          let afterDs := rest.dropWhile isDigitCh
          let withFrac : Option String :=
            match afterDs with
            | c1 :: u =>
                if c1 = '.' then
                  let fd := u.takeWhile isDigitCh
                  if fd.isEmpty then none
                  else if wordBreakAfter (u.dropWhile isDigitCh) then
                    some ⟨c :: (ds ++ '.' :: fd)⟩
                  else none
                else none
            | [] => none
          match withFrac with
          | some v => some v
          | none => if wordBreakAfter afterDs then some ⟨c :: ds⟩ else none
      else none
  | [] => none

/-- Search with group 1 of the spread pattern fixed to its `[^0-9]`
alternative: at each position left to right, a non-digit character
followed by a group-2 match. -/
def spreadScan : List Char → Option String
  | [] => none
  | c :: cs =>
      if !(isDigitCh c) then
        match spreadNumAt cs with
        | some v => some v
        | none => spreadScan cs
      else spreadScan cs

/-- Leftmost search with the spread pattern `(^|[+-][^0-9]...)`: the
zero-width `^` alternative of group 1 applies at position 0 only and is
tried first; then the `[^0-9]` alternative at every position.  Returns
group 2. -/
def spreadSearch (cs : List Char) : Option String :=
  match spreadNumAt cs with
  | some v => some v
  | none => spreadScan cs

/-- Existence test for `[+-]\d{3,4}`: a sign followed by at least three
digits somewhere in the input. -/
def mlOddsAt (cs : List Char) : Bool :=
  match cs with
  | c :: rest => (c == '+' || c == '-') && decide ((rest.takeWhile isDigitCh).length ≥ 3)
  | [] => false

/-- Scan for the moneyline odds pattern. -/
def mlOddsExists : List Char → Bool
  | [] => false
  | c :: cs => mlOddsAt (c :: cs) || mlOddsExists cs

/-- The statistical-category keywords of the prop heuristic. -/
def PROP_WORDS : List String :=
  ["pts", "points", "reb", "rebounds", "ast", "assists", "sog", "shots",
   "yards", "yds", "ga", "saves"]

/-- A whole-word prop keyword starting at the head of `cs` (the leading
`\b` is checked by the caller). -/
def propKwAt (cs : List Char) : Bool :=
  PROP_WORDS.any (fun w => leadSeg w.data cs && wordBreakAfter (cs.drop w.length))

/-- Scan for `\b(pts|points|...)\b`; the flag records whether the
previous character was a word character (every keyword starts with a
letter, so the leading `\b` holds exactly when it was not). -/
def propKwScanAux : Bool → List Char → Bool
  | _, [] => false
  | prevWord, c :: cs =>
      (!prevWord && propKwAt (c :: cs)) || propKwScanAux (isWordCh c) cs

/-- Existence of a whole-word statistical-category keyword. -/
def hasPropKeyword (cs : List Char) : Bool := propKwScanAux false cs

/-! ## Sport extraction (bot.py, SPORT_MAP and extract_sport) -/

/-- The source's sport table, in insertion order. -/
def SPORT_MAP : List (String × String) :=
  [("⚽", "soccer"), ("soccer", "soccer"), ("mls", "soccer"), ("ucl", "soccer"),
   ("🏈", "football"), ("nfl", "football"), ("cfb", "football"),
   ("🏀", "basketball"), ("nba", "basketball"), ("wnba", "basketball"), ("cbb", "basketball"),
   ("⚾", "baseball"), ("mlb", "baseball"),
   ("🥊", "mma"), ("ufc", "mma"),
   ("🏒", "hockey"), ("nhl", "hockey")]

/-- bot.py `extract_emojis`: the characters of the text matching the
emoji property, in order.  The `\p{Emoji}` character class lives in an
external Unicode table, so it is a parameter of the embedding; every
theorem below holds for an arbitrary table. -/
def extract_emojis (isEmoji : Char → Bool) (s : String) : List Char :=
  s.data.filter isEmoji

/-- Second loop of `extract_sport`: the first extracted emoji with a
`SPORT_MAP` entry. -/
def sportFromEmojis (isEmoji : Char → Bool) (text : String) : Option String :=
  ((extract_emojis isEmoji text).filterMap
    (fun e => SPORT_MAP.lookup (⟨[e]⟩ : String))).head?

/-- bot.py `extract_sport`: first a substring scan of the lowered text
over the sport table in insertion order, then the emoji lookup. -/
def extract_sport (isEmoji : Char → Bool) (text : String) : Option String :=
  let lower := pyLower text
  match SPORT_MAP.find? (fun kv => pyIn kv.1 lower) with
  | some kv => some kv.2
  | none => sportFromEmojis isEmoji text

/-! ## Bet-type detection (bot.py, detect_bet_type_and_line) -/

/-- Value of an unsigned numeric string `digits(.digits)?`. -/
def ratOfSignlessNum (cs : List Char) : ℚ :=
  let ds := cs.takeWhile isDigitCh
  match cs.dropWhile isDigitCh with
  | c :: u => if c = '.' then ratOfParts ds (u.takeWhile isDigitCh) else ratOfParts ds []
  | [] => ratOfParts ds []

/-- Python `float` on the strings produced by the spread pattern's
group 2 (an optional sign and an exact decimal). -/
def pyFloatSigned (s : String) : ℚ :=
  match s.data with
  | '-' :: rest => -(ratOfSignlessNum rest)
  | '+' :: rest => ratOfSignlessNum rest
  | rest => ratOfSignlessNum rest

/-- bot.py `detect_bet_type_and_line`: totals and props first (with the
prop keyword heuristic), then spreads, then the moneyline keyword or a
3-4 digit signed number, else unknown. -/
def detect_bet_type_and_line (text : String) : String × Option ℚ × Option String :=
  let lower := pyLower text
  match totalSearch lower.data with
  | some (kw, v) =>
      let side : String := if pyIn "over" kw then "over" else "under"
      if hasPropKeyword lower.data then ("prop", some v, some side)
      else ("total", some v, some side)
  | none =>
      match spreadSearch text.data with
      | some raw =>
          let side : String := if leadSeg ['-'] raw.data then "fav" else "dog"
          ("spread", some (pyFloatSigned raw), some side)
      | none =>
          if pyIn "ml" lower || pyIn "moneyline" lower then ("moneyline", none, none)
          else if mlOddsExists text.data then ("moneyline", none, none)
          else ("unknown", none, none)

/-! ## Outcome classification and parsing (bot.py, classify_line and parse_bet) -/

/-- First loop of `classify_line`: the sentiment of each extracted emoji
in order, stopping at the first `win` or `loss`.  The classifier
(bot.py `classify_emoji`, built on `unicodedata` names) is a parameter
of the embedding; it returns `win`, `loss`, or nothing. -/
def classifyEmojiLoop (classifyEmoji : Char → Option String) (units : ℚ) :
    List Char → Option (String × ℚ)
  | [] => none
  | e :: es =>
      match classifyEmoji e with
      | some s =>
          if s = "win" then some ("win", units)
          else if s = "loss" then some ("loss", -units)
          else classifyEmojiLoop classifyEmoji units es
      | none => classifyEmojiLoop classifyEmoji units es

/-- bot.py `classify_line`: emoji sentiment first, then the keyword
scan over the lowered line; no signal yields `(none, 0)`. -/
def classify_line (isEmoji : Char → Bool) (classifyEmoji : Char → Option String)
    (line : String) (units : ℚ) : Option String × ℚ :=
  match classifyEmojiLoop classifyEmoji units (extract_emojis isEmoji line) with
  | some (s, r) => (some s, r)
  | none =>
      let lower := pyLower line
      if ["win", "cash", "hit", "w "].any (fun w => pyIn w lower) then (some "win", units)
      else if ["loss", "miss", "l ", "lose"].any (fun w => pyIn w lower) then (some "loss", -units)
      else if ["push", "void", "cancel"].any (fun w => pyIn w lower) then (some "push", 0)
      else (none, 0)

/-- The tuple returned by bot.py `parse_bet` on success. -/
structure ParsedBet where
  units : ℚ
  odds : Option String
  status : String
  result : ℚ
  sport : Option String
  bet_type : String
  posted_line : Option ℚ
  posted_side : Option String
deriving DecidableEq

/-- bot.py `parse_bet`: strip the line (empty fails), extract units
(default 1.0), odds, sport and bet type, then classify the outcome;
a missing outcome signal fails. -/
def parse_bet (isEmoji : Char → Bool) (classifyEmoji : Char → Option String)
    (line0 : String) : Option ParsedBet :=
  let line := pyStrip line0
  if line = "" then none
  else
    let units := (unitsSearch (pyLower line).data).getD 1
    let odds := oddsSearch line.data
    let sport := extract_sport isEmoji line
    let btls := detect_bet_type_and_line line
    match classify_line isEmoji classifyEmoji line units with
    | (some status, result) =>
        some ⟨units, odds, status, result, sport, btls.1, btls.2.1, btls.2.2⟩
    | (none, _) => none

/-! ## Event keys (bot.py, extract_teams_key and build_event_key; clv.py) -/

/-- The stop words of the team-token extractor. -/
def GENERIC_WORDS : List String :=
  ["over", "under", "parlay", "moneyline", "ml", "spread", "total", "pts",
   "points", "reb", "rebounds", "ast", "assists"]

/-- The tail class `[A-Za-z&.\- ]` of the team-token pattern. -/
def isTeamTailCh (c : Char) : Bool :=
  c.isAlpha || c == '&' || c == '.' || c == '-' || c == ' '

/-- findall of `[A-Za-z][A-Za-z&.\- ]{2,}`: scan left to right; at a
letter followed by a maximal tail-class run of length at least two,
emit the letter with the run and continue past it (matches do not
overlap); otherwise advance one character. -/
def teamTokensAux : ℕ → List Char → List (List Char)
  | _, [] => []
  | 0, _ :: _ => []
  | fuel + 1, c :: rest =>
      if isAlphaCh c then
        let run := rest.takeWhile isTeamTailCh
        if run.length ≥ 2 then (c :: run) :: teamTokensAux fuel (rest.dropWhile isTeamTailCh)
        else teamTokensAux fuel rest
      else teamTokensAux fuel rest

/-- The scan above at full fuel (each step consumes at least one
character, so the input length bounds the step count). -/
def teamTokens (cs : List Char) : List (List Char) :=
  teamTokensAux cs.length cs

/-- The cleaning step applied to each token: `t.strip().lower()`. -/
def cleanToken (t : List Char) : List Char := (pyStripList t).map Char.toLower

/-- The kept cleaned tokens of a text, as character lists: length above
two and not a stop word. -/
def keptTeams (bet_text : String) : List (List Char) :=
  (teamTokens bet_text.data).filterMap (fun t =>
    let tc := cleanToken t
    if 2 < tc.length ∧ (⟨tc⟩ : String) ∉ GENERIC_WORDS then some tc else none)

/-- Python `sorted(set(l))` for strings, on their character lists: the
sorted enumeration of the distinct elements (Python compares strings
lexicographically by code point, as the lexicographic order on
character lists does). -/
def pySortedSet (l : List (List Char)) : List (List Char) :=
  List.insertionSort (fun a b => a ≤ b) l.dedup

/-- Python `"|".join`. -/
def joinBar : List (List Char) → List Char
  | [] => []
  | [t] => t
  | t :: ts => t ++ '|' :: joinBar ts

/-- bot.py `extract_teams_key`: join the sorted distinct kept tokens
with a bar, cap at 180 characters, and default to `unknown` when
empty. -/
def extract_teams_key (bet_text : String) : String :=
  let capped : String := ⟨(joinBar (pySortedSet (keptTeams bet_text))).take 180⟩
  if capped = "" then "unknown" else capped

/-! ## Declarative form of the stake rule (claim side) -/

/-- The amended stake pattern as a predicate on the lowered line: a run
of digits, an optional fractional part, then optional whitespace and
the letter `u`, anywhere in the line; the value is that of the decimal.
This is what the units regex `(\\d+(\\.\\d+)?)\\s*u` accepts. -/
def HasUnitsPattern (cs : List Char) (v : ℚ) : Prop :=
  ∃ pre ds fdigits ws rest : List Char,
    ds ≠ [] ∧ (∀ c ∈ ds, isDigitCh c = true) ∧
    (∀ c ∈ fdigits, isDigitCh c = true) ∧
    (∀ c ∈ ws, isPySpace c = true) ∧
    cs = pre ++ (ds ++ ((if fdigits = [] then [] else '.' :: fdigits) ++ (ws ++ 'u' :: rest))) ∧
    v = ratOfParts ds fdigits

/-- The stake rule exactly as the original claim states it: the unit
marker anchored directly after the digits, with no whitespace allowed
in between.  Match at the head of the list. -/
def anchoredUnitsAt (cs : List Char) : Option ℚ :=
  let ds := cs.takeWhile isDigitCh
  if ds.isEmpty then none
  else
    match cs.dropWhile isDigitCh with
    | c :: u =>
        if c = '.' then
          let fd := u.takeWhile isDigitCh
          if fd.isEmpty then none
          else
            match u.dropWhile isDigitCh with
            | c2 :: _ => if c2 = 'u' then some (ratOfParts ds fd) else none
            | [] => none
        else if c = 'u' then some (ratOfParts ds []) else none
    | [] => none

/-- Leftmost search with the anchored stake rule of the original
claim. -/
def anchoredUnitsSearch : List Char → Option ℚ
  | [] => none
  | c :: cs =>
      match anchoredUnitsAt (c :: cs) with
      | some v => some v
      | none => anchoredUnitsSearch cs

/-- Calendar dates as stored by the record store. -/
structure PyDate where
  year : ℕ
  month : ℕ
  day : ℕ
deriving DecidableEq

/-- Two-digit zero padding. -/
def pad2 (n : ℕ) : String := if n < 10 then "0" ++ toString n else toString n

/-- Four-digit zero padding. -/
def pad4 (n : ℕ) : String :=
  if n < 10 then "000" ++ toString n
  else if n < 100 then "00" ++ toString n
  else if n < 1000 then "0" ++ toString n
  else toString n

/-- Python `date.isoformat()`. -/
def PyDate.isoformat (d : PyDate) : String :=
  pad4 d.year ++ "-" ++ pad2 d.month ++ "-" ++ pad2 d.day

/-- Python `x or "unknown"` on an optional string (`None` and the empty
string are falsy). -/
def pyOrUnknown : Option String → String
  | none => "unknown"
  | some s => if s = "" then "unknown" else s

/-- Python f-string interpolation of an optional string (`None` prints
as the text `None`). -/
def pyFormatOpt : Option String → String
  | none => "None"
  | some s => s

/-- bot.py `build_event_key`. -/
def build_event_key (bet_text : String) (sport : Option String) (date : PyDate)
    (bet_type : Option String) : String :=
  pyOrUnknown sport ++ "|" ++ date.isoformat ++ "|" ++ pyOrUnknown bet_type ++ "|" ++
    extract_teams_key bet_text

/-- clv.py `try_update_bet_with_closing`, key construction: the inline
`f"{sport}|{date.isoformat()}|{bet_type}|{bet_text[:50]}"` (the comment
in the source calls it simplified). -/
def clvEventKey (bet_text : String) (sport : Option String) (date : PyDate)
    (bet_type : Option String) : String :=
  pyFormatOpt sport ++ "|" ++ date.isoformat ++ "|" ++ pyFormatOpt bet_type ++ "|" ++
    ⟨bet_text.data.take 50⟩

/-! ## Reconciliation pass (clv.py) -/

/-- A row of the `closings` table (schema of bot.py / models.py). -/
structure ClosingRow where
  guild_id : ℤ
  event_key : String
  closing_line : Option ℚ
  closing_odds : Option String
  source : String
  fetched_at : ℕ
deriving DecidableEq

/-- A row of the `bets` table, restricted to the columns the
reconciliation pass reads (`id, bet_text, sport, bet_type, date`,
filtered by `guild_id`) or writes (`closing_line, closing_odds`); the
remaining columns are neither read nor written by it. -/
structure BetRow where
  id : ℕ
  guild_id : ℤ
  bet_text : String
  sport : Option String
  bet_type : Option String
  date : PyDate
  closing_line : Option ℚ
  closing_odds : Option String
deriving DecidableEq

/-- The key columns of one bet as snapshotted by the pass's initial
SELECT. -/
structure BetKeyData where
  id : ℕ
  bet_text : String
  sport : Option String
  bet_type : Option String
  date : PyDate
deriving DecidableEq

/-- clv.py `try_update_bet_with_closing`, closing lookup: the rows of
`closings` matching the guild and event key, in insertion order (the
query has no ORDER BY), projected to `(closing_line, closing_odds)` of
the first row. -/
def closingLookup (closings : List ClosingRow) (guild_id : ℤ) (ek : String) :
    Option (Option ℚ × Option String) :=
  ((closings.filter (fun r => r.guild_id == guild_id && r.event_key == ek)).head?).map
    (fun r => (r.closing_line, r.closing_odds))

/-- clv.py `try_update_bet_with_closing`: build the simplified event
key, look the closings up, and on a hit update the bet row's closing
columns (UPDATE ... WHERE id) and report success. -/
def try_update_bet_with_closing (bet_id : ℕ) (guild_id : ℤ) (bet_text : String)
    (sport bet_type : Option String) (date : PyDate) (closings : List ClosingRow)
    (bets : List BetRow) : List BetRow × Bool :=
  let ek := clvEventKey bet_text sport date bet_type
  match closingLookup closings guild_id ek with
  | some p =>
      (bets.map (fun b =>
        if b.id = bet_id then { b with closing_line := p.1, closing_odds := p.2 } else b), true)
  | none => (bets, false)

/-- The rows snapshotted by the pass's SELECT: the guild's bets, in
table order. -/
def betTargets (guild_id : ℤ) (bets : List BetRow) : List BetKeyData :=
  (bets.filter (fun b => b.guild_id == guild_id)).map
    (fun b => ⟨b.id, b.bet_text, b.sport, b.bet_type, b.date⟩)

/-- The loop of clv.py `run_updateclv_for_guild` over the snapshotted
rows, carrying the bets table and the updated counter. -/
def runAux (closings : List ClosingRow) (guild_id : ℤ) :
    List BetKeyData → List BetRow × ℕ → List BetRow × ℕ
  | [], acc => acc
  | t :: ts, acc =>
      let r := try_update_bet_with_closing t.id guild_id t.bet_text t.sport t.bet_type t.date
        closings acc.1
      runAux closings guild_id ts (r.1, acc.2 + if r.2 then 1 else 0)

/-- clv.py `run_updateclv_for_guild`: snapshot the guild's bets, then
attempt a closing update for each, returning the updated table and the
count of updated bets. -/
def run_updateclv_for_guild (closings : List ClosingRow) (guild_id : ℤ)
    (bets : List BetRow) : List BetRow × ℕ :=
  runAux closings guild_id (betTargets guild_id bets) (bets, 0)

/-! ## Consensus matcher (modelled from the spec)

The fuzzy consensus matcher of spec section 4.4 has no implementation
under src/: bot.py `try_update_bet_with_cached_closing` performs only
the exact lookup (step 1), and only the snapshot cache and the
disambiguation table schema exist in the sources.  The definitions
below model the missing resolver from the spec's words. -/

/-- Modelled from the spec: a `MatchCandidate` of section 3,
`(overlap_score, label, closing_line, closing_odds, source_event_key)`. -/
structure MatchCandidate where
  overlap_score : ℕ
  label : String
  closing_line : Option ℚ
  closing_odds : Option String
  source_event_key : String
deriving DecidableEq

/-- Modelled from the spec: the `MatchResult` of section 4.4. -/
inductive MatchResult where
  | Matched (closing_line : Option ℚ) (closing_odds : Option String) (source : String)
  | Candidates (cands : List MatchCandidate)
  | NoMatch
deriving DecidableEq

/-- Split a character list at bars, the event key's separator. -/
def splitBar : List Char → List (List Char)
  | [] => [[]]
  | c :: cs =>
      let r := splitBar cs
      if c = '|' then [] :: r
      else (c :: r.headD []) :: r.tail

/-- The `sport|date(ISO)|bet_type` prefix of an event key: its first
three bar-separated parts. -/
def keyPrefix (ek : String) : List (List Char) := (splitBar ek.data).take 3

/-- The team tokens of an event key: its bar-separated parts after the
first three. -/
def keyTokens (ek : String) : List (List Char) := (splitBar ek.data).drop 3

/-- Modelled from the spec: `overlap_score`, the size of the
set-intersection of team tokens between a candidate's event key and the
query's. -/
def overlap_score (candidate_key query_key : String) : ℕ :=
  (((keyTokens candidate_key).dedup).filter (fun t => t ∈ keyTokens query_key)).length

/-- Modelled from the spec: step 1 of `resolve`, the most recent
snapshot for the exact event key (later fetches win; the first of equal
timestamps is kept). -/
def mostRecentClosing (cache : List ClosingRow) (guild_id : ℤ) (ek : String) :
    Option ClosingRow :=
  (cache.filter (fun r => r.guild_id == guild_id && r.event_key == ek)).foldl
    (fun acc r =>
      match acc with
      | none => some r
      | some a => if a.fetched_at < r.fetched_at then some r else acc) none

/-- Modelled from the spec: the fuzzy-scan candidate pool, the cached
snapshots of the guild sharing the query's `sport|date|bet_type` prefix
and carrying non-null data (the spec's bounded recency window is an
optimisation and is not modelled). -/
def candidatePool (cache : List ClosingRow) (guild_id : ℤ) (query_key : String) :
    List ClosingRow :=
  cache.filter (fun r =>
    r.guild_id == guild_id && decide (keyPrefix r.event_key = keyPrefix query_key) &&
      (r.closing_line.isSome || r.closing_odds.isSome))

/-- Modelled from the spec: the best-scoring candidate with non-null
data (the first of equal scores is kept). -/
def bestCandidate (cache : List ClosingRow) (guild_id : ℤ) (query_key : String) :
    Option (ℕ × ClosingRow) :=
  (candidatePool cache guild_id query_key).foldl
    (fun acc r =>
      let sc := overlap_score r.event_key query_key
      match acc with
      | none => some (sc, r)
      | some a => if a.1 < sc then some (sc, r) else acc) none

/-- Modelled from the spec: a candidate's human-readable label for the
disambiguation UI (its source event key). -/
def candidateOf (query_key : String) (r : ClosingRow) : MatchCandidate :=
  ⟨overlap_score r.event_key query_key, r.event_key, r.closing_line, r.closing_odds,
    r.event_key⟩

/-- Modelled from the spec: steps 2-5 of `resolve`. -/
def fuzzyResolve (cache : List ClosingRow) (guild_id : ℤ) (query_key : String) (now : ℕ) :
    MatchResult × List ClosingRow :=
  match bestCandidate cache guild_id query_key with
  | some best =>
      if 1 ≤ best.1 then
        (MatchResult.Matched best.2.closing_line best.2.closing_odds best.2.source,
         cache ++ [⟨guild_id, query_key, best.2.closing_line, best.2.closing_odds,
                    best.2.source, now⟩])
      else
        (MatchResult.Candidates
          ((List.insertionSort (fun a b : MatchCandidate => b.overlap_score ≤ a.overlap_score)
            ((candidatePool cache guild_id query_key).map (candidateOf query_key))).take 5),
         cache)
  | none => (MatchResult.NoMatch, cache)

/-- Modelled from the spec: `resolve` of section 4.4.  Exact lookup
first; then the fuzzy scan: a best candidate scoring at least 1 is
auto-accepted, persisting a new snapshot under the query's own event
key (cache write-through) and returning `Matched`; otherwise the scored
candidates are ranked descending, capped at 5, and returned as
`Candidates`; with no candidates at all, `NoMatch`. -/
def resolve (cache : List ClosingRow) (guild_id : ℤ) (query_key : String) (now : ℕ) :
    MatchResult × List ClosingRow :=
  match mostRecentClosing cache guild_id query_key with
  | some r =>
      if r.closing_line.isSome || r.closing_odds.isSome then
        (MatchResult.Matched r.closing_line r.closing_odds r.source, cache)
      else fuzzyResolve cache guild_id query_key now
  | none => fuzzyResolve cache guild_id query_key now


/-! ## Auxiliary views of the reconciliation pass, used by its proofs -/

/-- The closing values the pass would write for one snapshotted bet
row: the clv.py lookup under the simplified key. -/
def clvUpdate (closings : List ClosingRow) (guild_id : ℤ) (t : BetKeyData) :
    Option (Option ℚ × Option String) :=
  closingLookup closings guild_id (clvEventKey t.bet_text t.sport t.date t.bet_type)

/-- Set the closing columns of a bet row. -/
def setCl (p : Option ℚ × Option String) (b : BetRow) : BetRow :=
  { b with closing_line := p.1, closing_odds := p.2 }

/-- The effect of one loop iteration on one bet row. -/
def stepB (closings : List ClosingRow) (guild_id : ℤ) (t : BetKeyData) (b : BetRow) : BetRow :=
  match clvUpdate closings guild_id t with
  | some p => if b.id = t.id then setCl p b else b
  | none => b

/-- The composite effect of the whole loop on one bet row. -/
def chainB (closings : List ClosingRow) (guild_id : ℤ) (ts : List BetKeyData) (b : BetRow) :
    BetRow :=
  ts.foldl (fun b t => stepB closings guild_id t b) b

/-- The last closing write a target sequence performs on a given bet
id, threaded from an initial value. -/
def lastWFrom (closings : List ClosingRow) (guild_id : ℤ) (i : ℕ)
    (acc : Option (Option ℚ × Option String)) (ts : List BetKeyData) :
    Option (Option ℚ × Option String) :=
  ts.foldl (fun acc t =>
    match clvUpdate closings guild_id t with
    | some p => if t.id = i then some p else acc
    | none => acc) acc

/-- Apply an optional closing write to a bet row. -/
def applyAcc (acc : Option (Option ℚ × Option String)) (b : BetRow) : BetRow :=
  match acc with
  | some p => setCl p b
  | none => b

/-- One-sided cancellation of string concatenation. -/
theorem str_append_left_cancel {a x y : String} (h : a ++ x = a ++ y) : x = y := by
  have hd := congrArg String.data h
  rw [String.data_append, String.data_append] at hd
  exact String.ext (List.append_cancel_left hd)

/-- The emoji loop of `classify_line` returns nothing, a win at the
stake, or a loss at the negated stake. -/
theorem classifyEmojiLoop_cases (ce : Char → Option String) (u : ℚ) (l : List Char) :
    classifyEmojiLoop ce u l = none ∨ classifyEmojiLoop ce u l = some ("win", u) ∨
      classifyEmojiLoop ce u l = some ("loss", -u) := by
  induction l with
  | nil => exact Or.inl rfl
  | cons e es ih =>
      rw [classifyEmojiLoop]
      cases h : ce e with
      | none => simpa using ih
      | some s =>
          by_cases h1 : s = "win"
      
          · simp [h1]
          · by_cases h2 : s = "loss"
            · simp [h1, h2]
            · simpa [h1, h2] using ih

/-- `classify_line` returns no signal, or one of the three statuses with
its source-determined signed result. -/
theorem classify_line_cases (ie : Char → Bool) (ce : Char → Option String)
    (line : String) (u : ℚ) :
    classify_line ie ce line u = (none, 0) ∨
    classify_line ie ce line u = (some "win", u) ∨
    classify_line ie ce line u = (some "loss", -u) ∨
    classify_line ie ce line u = (some "push", 0) := by
  rw [classify_line]
  rcases classifyEmojiLoop_cases ce u (extract_emojis ie line) with h | h | h <;> rw [h]
  · simp only
    split_ifs <;> simp
  · simp
  · simp


/-- C10: for every valid nonzero integer American odds value `o`,
`american_to_prob` returns a probability strictly between 0 and 1. -/
theorem american_to_prob_in_unit_interval (s : String) (o : ℤ)
    (hparse : parsePyInt s = some o) (hnz : o ≠ 0) :
    ∃ p : ℚ, american_to_prob s = some p ∧ 0 < p ∧ p < 1 := by
  refine ⟨if o > 0 then (100 : ℚ) / ((o : ℚ) + 100) else (-(o : ℚ)) / (-(o : ℚ) + 100),
    by rw [american_to_prob, hparse], ?_, ?_⟩
  · rcases lt_or_gt_of_ne hnz with hneg | hpos
    · have h0 : ¬ (o > 0) := by omega
      have hq : (0 : ℚ) < -(o : ℚ) := by
        have : (o : ℚ) < 0 := by exact_mod_cast hneg
        linarith
      simp only [h0, if_false]
      exact div_pos hq (by linarith)
    · have hq : (0 : ℚ) < (o : ℚ) := by exact_mod_cast hpos
      simp only [hpos, if_true]
      exact div_pos (by norm_num) (by linarith)
  · rcases lt_or_gt_of_ne hnz with hneg | hpos
    · have h0 : ¬ (o > 0) := by omega
      have hq : (0 : ℚ) < -(o : ℚ) := by
        have : (o : ℚ) < 0 := by exact_mod_cast hneg
        linarith
      simp only [h0, if_false]
      rw [div_lt_one (by linarith)]
      linarith
    · have hq : (0 : ℚ) < (o : ℚ) := by exact_mod_cast hpos
      simp only [hpos, if_true]
      rw [div_lt_one (by linarith)]
      linarith

/-- Witness for C10 at the concrete odds string "-150". -/
theorem american_to_prob_in_unit_interval_witness :
    ∃ p : ℚ, american_to_prob "-150" = some p ∧ 0 < p ∧ p < 1 :=
  american_to_prob_in_unit_interval "-150" (-150) (by decide) (by decide)

/-- C1: `calc_clv_for_bet` computes, per bet type: for moneyline, the
implied-probability difference `p_close - p_post` under the American
conversion (`100/(o+100)` for `o > 0`, `-o/(-o+100)` for `o < 0`), and
`none` when an odds field is missing, empty, or fails integer
conversion; for spread, `abs(closing_line) - abs(posted_line)` when both
lines are present and the side is `fav` or `dog`, and `none` otherwise;
for total and prop, `closing_line - posted_line` for side `over` and its
negation for side `under`, and `none` when a line or an in-domain side
is missing; and `none` for every other bet type. -/
theorem clv_calculator_correct (pl cl : Option ℚ) (ps po co : Option String) :
    (∀ (pos cos : String) (a b : ℤ), po = some pos → co = some cos →
        pos ≠ "" → cos ≠ "" → parsePyInt pos = some a → a ≠ 0 →
        parsePyInt cos = some b → b ≠ 0 →
        calc_clv_for_bet "moneyline" pl ps po cl co =
          some ((if b > 0 then (100 : ℚ) / ((b : ℚ) + 100) else (-(b : ℚ)) / (-(b : ℚ) + 100)) -
                (if a > 0 then (100 : ℚ) / ((a : ℚ) + 100) else (-(a : ℚ)) / (-(a : ℚ) + 100)))) ∧
    ((pyTruthy po = false ∨ pyTruthy co = false ∨
        (∃ s, po = some s ∧ parsePyInt s = none) ∨ (∃ s, co = some s ∧ parsePyInt s = none)) →
        calc_clv_for_bet "moneyline" pl ps po cl co = none) ∧
    (∀ (x y : ℚ) (s : String), pl = some x → cl = some y → ps = some s →
        (s = "fav" ∨ s = "dog") →
        calc_clv_for_bet "spread" pl ps po cl co = some (|y| - |x|)) ∧
    ((pl = none ∨ cl = none ∨ ps = none ∨ (∃ s, ps = some s ∧ s ≠ "fav" ∧ s ≠ "dog")) →
        calc_clv_for_bet "spread" pl ps po cl co = none) ∧
    (∀ bt, (bt = "total" ∨ bt = "prop") → ∀ x y : ℚ, pl = some x → cl = some y →
        (ps = some "over" → calc_clv_for_bet bt pl ps po cl co = some (y - x)) ∧
        (ps = some "under" → calc_clv_for_bet bt pl ps po cl co = some (-(y - x)))) ∧
    (∀ bt, (bt = "total" ∨ bt = "prop") →
        (pl = none ∨ cl = none ∨ ps = none ∨ (∃ s, ps = some s ∧ s ≠ "over" ∧ s ≠ "under")) →
        calc_clv_for_bet bt pl ps po cl co = none) ∧
    (∀ bt, bt ≠ "moneyline" → bt ≠ "spread" → bt ≠ "total" → bt ≠ "prop" →
        calc_clv_for_bet bt pl ps po cl co = none) := by
  refine ⟨?_, ?_, ?_, ?_, ?_, ?_, ?_⟩
  · intro pos cos a b hpo hco hpos hcos hpa ha hpb hb
    subst hpo hco
    have tpo : pyTruthy (some pos) = true := by
      simp [pyTruthy, hpos]
    have tco : pyTruthy (some cos) = true := by
      simp [pyTruthy, hcos]
    simp [calc_clv_for_bet, tpo, tco, american_to_prob, hpa, hpb]
  · intro h
    have key : (if pyTruthy po then american_to_prob (po.getD "") else none) = none ∨
        (if pyTruthy co then american_to_prob (co.getD "") else none) = none := by
      rcases h with h | h | ⟨s, hs, hn⟩ | ⟨s, hs, hn⟩
      · left; simp [h]
      · right; simp [h]
      · left; subst hs
        have hne : american_to_prob s = none := by rw [american_to_prob, hn]
        simp [hne]
      · right; subst hs
        have hne : american_to_prob s = none := by rw [american_to_prob, hn]
        simp [hne]
    simp only [calc_clv_for_bet, if_pos rfl]
    rcases key with k | k
    · rw [k]
      rcases (if pyTruthy co then american_to_prob (co.getD "") else none) with _ | v <;> rfl
    · rw [k]
      rcases (if pyTruthy po then american_to_prob (po.getD "") else none) with _ | v <;> rfl
  · intro x y s hx hy hs hdom
    subst hx hy hs
    rcases hdom with h | h <;> subst h <;> simp [calc_clv_for_bet]
  · intro h
    rcases h with h | h | h | ⟨s, hs, h1, h2⟩
    · subst h; rcases cl with _ | y <;> simp [calc_clv_for_bet]
    · subst h; rcases pl with _ | x <;> simp [calc_clv_for_bet]
    · subst h
      rcases pl with _ | x <;> rcases cl with _ | y <;> simp [calc_clv_for_bet]
    · subst hs
      rcases pl with _ | x <;> rcases cl with _ | y <;> simp [calc_clv_for_bet, h1, h2]
  · intro bt hbt x y hx hy
    subst hx hy
    constructor
    · intro hs
      subst hs
      rcases hbt with h | h <;> subst h <;> simp [calc_clv_for_bet]
    · intro hs
      subst hs
      rcases hbt with h | h <;> subst h <;> simp [calc_clv_for_bet]
  · intro bt hbt h
    have hne : bt ≠ "moneyline" ∧ bt ≠ "spread" := by
      rcases hbt with h' | h' <;> subst h' <;> exact ⟨by decide, by decide⟩
    rcases h with h | h | h | ⟨s, hs, h1, h2⟩
    · subst h
      rcases cl with _ | y <;> simp [calc_clv_for_bet, hne.1, hne.2, hbt]
    · subst h
      rcases pl with _ | x <;> simp [calc_clv_for_bet, hne.1, hne.2, hbt]
    · subst h
      rcases pl with _ | x <;> rcases cl with _ | y <;>
        simp [calc_clv_for_bet, hne.1, hne.2, hbt]
    · subst hs
      rcases pl with _ | x <;> rcases cl with _ | y <;>
        simp [calc_clv_for_bet, hne.1, hne.2, hbt, h1, h2]
  · intro bt h1 h2 h3 h4
    simp [calc_clv_for_bet, h1, h2, h3, h4]

/-- Witness for C1: the moneyline clause at posted odds -150 against
closing odds -130 gives the implied-probability edge 13/23 - 3/5. -/
theorem clv_calculator_correct_witness :
    calc_clv_for_bet "moneyline" none none (some "-150") none (some "-130") =
      some ((13 : ℚ) / 23 - 3 / 5) := by
  have h := (clv_calculator_correct none none none (some "-150") (some "-130")).1
    "-150" "-130" (-150) (-130) rfl rfl (by decide) (by decide) (by decide) (by decide)
    (by decide) (by decide)
  rw [h]
  norm_num

/-- C9: the posted side's domain is determined by the bet type: a
spread always carries side `fav` or `dog`, a total or prop always
carries `over` or `under`, and a moneyline or unknown classification
carries no posted line and no side; no other bet type occurs. -/
theorem detect_side_domain (text : String) (bt : String) (pl : Option ℚ) (ps : Option String)
    (h : detect_bet_type_and_line text = (bt, pl, ps)) :
    (bt = "spread" → ps = some "fav" ∨ ps = some "dog") ∧
    ((bt = "total" ∨ bt = "prop") → ps = some "over" ∨ ps = some "under") ∧
    ((bt = "moneyline" ∨ bt = "unknown") → pl = none ∧ ps = none) ∧
    (bt = "moneyline" ∨ bt = "spread" ∨ bt = "total" ∨ bt = "prop" ∨ bt = "unknown") := by
  rw [detect_bet_type_and_line] at h
  rcases hts : totalSearch (pyLower text).data with _ | ⟨kw, v⟩ <;> rw [hts] at h
  · rcases hsp : spreadSearch text.data with _ | raw <;> rw [hsp] at h
    · by_cases hml : (pyIn "ml" (pyLower text) || pyIn "moneyline" (pyLower text)) = true
      · rw [if_pos hml] at h
        simp only [Prod.mk.injEq] at h
        obtain ⟨hbt, hpl, hps⟩ := h
        subst hbt hpl hps
        refine ⟨fun hc => absurd hc (by decide), fun hc => ?_, fun _ => ⟨rfl, rfl⟩, Or.inl rfl⟩
        rcases hc with hc | hc <;> exact absurd hc (by decide)
      · rw [if_neg hml] at h
        by_cases hod : mlOddsExists text.data = true
        · rw [if_pos hod] at h
          simp only [Prod.mk.injEq] at h
          obtain ⟨hbt, hpl, hps⟩ := h
          subst hbt hpl hps
          refine ⟨fun hc => absurd hc (by decide), fun hc => ?_, fun _ => ⟨rfl, rfl⟩, Or.inl rfl⟩
          rcases hc with hc | hc <;> exact absurd hc (by decide)
        · rw [if_neg hod] at h
          simp only [Prod.mk.injEq] at h
          obtain ⟨hbt, hpl, hps⟩ := h
          subst hbt hpl hps
          refine ⟨fun hc => absurd hc (by decide), fun hc => ?_, fun _ => ⟨rfl, rfl⟩,
            Or.inr (Or.inr (Or.inr (Or.inr rfl)))⟩
          rcases hc with hc | hc <;> exact absurd hc (by decide)
    · simp only [Prod.mk.injEq] at h
      obtain ⟨hbt, hpl, hps⟩ := h
      subst hbt hpl hps
      refine ⟨fun _ => ?_, fun hc => ?_, fun hc => ?_, Or.inr (Or.inl rfl)⟩
      · by_cases hmn : leadSeg ['-'] raw.data = true
        · exact Or.inl (by rw [if_pos hmn])
        · exact Or.inr (by rw [if_neg hmn])
      · rcases hc with hc | hc <;> exact absurd hc (by decide)
      · rcases hc with hc | hc <;> exact absurd hc (by decide)
  · simp only at h
    by_cases hpk : hasPropKeyword (pyLower text).data = true <;>
      [rw [if_pos hpk] at h; rw [if_neg hpk] at h] <;>
    · simp only [Prod.mk.injEq] at h
      obtain ⟨hbt, hpl, hps⟩ := h
      subst hbt hpl hps
      refine ⟨fun hc => absurd hc (by decide), fun _ => ?_, fun hc => ?_, by simp⟩
      · by_cases hov : pyIn "over" kw = true
        · exact Or.inl (by rw [if_pos hov])
        · exact Or.inr (by rw [if_neg hov])
      · rcases hc with hc | hc <;> exact absurd hc (by decide)

/-- Witness for C9 at the concrete line "win -3.5", classified as a
spread on the favourite. -/
theorem detect_side_domain_witness :
    (some "fav" : Option String) = some "fav" ∨ (some "fav" : Option String) = some "dog" :=
  (detect_side_domain "win -3.5" "spread" (some (mkRat (-7) 2)) (some "fav") (by decide)).1 rfl

/-- Reduction of `parse_bet` on a nonempty stripped line. -/
theorem parse_bet_reduce (ie : Char → Bool) (ce : Char → Option String) (line : String)
    (hl : pyStrip line ≠ "") :
    parse_bet ie ce line =
      match classify_line ie ce (pyStrip line)
          ((unitsSearch (pyLower (pyStrip line)).data).getD 1) with
      | (some status, result) =>
          some ⟨(unitsSearch (pyLower (pyStrip line)).data).getD 1,
            oddsSearch (pyStrip line).data, status, result, extract_sport ie (pyStrip line),
            (detect_bet_type_and_line (pyStrip line)).1,
            (detect_bet_type_and_line (pyStrip line)).2.1,
            (detect_bet_type_and_line (pyStrip line)).2.2⟩
      | (none, _) => none := by
  simp only [parse_bet]
  rw [if_neg hl]

/-- C2: `parse_bet` fails exactly on an empty (stripped) line or when
the outcome classifier finds no win/loss/push signal, regardless of the
other fields; on success the signed result is the stake for a win, its
negation for a loss, and zero for a push. -/
theorem parse_failure_and_result_sign (ie : Char → Bool) (ce : Char → Option String)
    (line : String) :
    (parse_bet ie ce line = none ↔
      pyStrip line = "" ∨
        (classify_line ie ce (pyStrip line)
          ((unitsSearch (pyLower (pyStrip line)).data).getD 1)).1 = none) ∧
    (∀ pb, parse_bet ie ce line = some pb →
      (pb.status = "win" → pb.result = pb.units) ∧
      (pb.status = "loss" → pb.result = -pb.units) ∧
      (pb.status = "push" → pb.result = 0) ∧
      (pb.status = "win" ∨ pb.status = "loss" ∨ pb.status = "push")) := by
  by_cases hl : pyStrip line = ""
  · have hn : parse_bet ie ce line = none := by simp [parse_bet, hl]
    constructor
    · simp [hn, hl]
    · intro pb hpb
      rw [hn] at hpb
      exact absurd hpb (by simp)
  · have hred := parse_bet_reduce ie ce line hl
    rcases classify_line_cases ie ce (pyStrip line)
        ((unitsSearch (pyLower (pyStrip line)).data).getD 1) with hc | hc | hc | hc <;>
      rw [hc] at hred <;> simp only at hred
    · constructor
      · rw [hred]
        simp [hl, hc]
      · intro pb hpb
        rw [hred] at hpb
        exact absurd hpb (by simp)
    · constructor
      · rw [hred]
        simp [hl, hc]
      · intro pb hpb
        rw [hred] at hpb
        simp only [Option.some.injEq] at hpb
        subst hpb
        refine ⟨fun _ => rfl, fun hc2 => by simp at hc2,
          fun hc2 => by simp at hc2, Or.inl rfl⟩
    · constructor
      · rw [hred]
        simp [hl, hc]
      · intro pb hpb
        rw [hred] at hpb
        simp only [Option.some.injEq] at hpb
        subst hpb
        refine ⟨fun hc2 => by simp at hc2, fun _ => rfl,
          fun hc2 => by simp at hc2, Or.inr (Or.inl rfl)⟩
    · constructor
      · rw [hred]
        simp [hl, hc]
      · intro pb hpb
        rw [hred] at hpb
        simp only [Option.some.injEq] at hpb
        subst hpb
        refine ⟨fun hc2 => by simp at hc2, fun hc2 => by simp at hc2,
          fun _ => rfl, Or.inr (Or.inr rfl)⟩

/-- Witness for C2: a line with well-formed fields but no outcome
signal parses to nothing. -/
theorem parse_failure_and_result_sign_witness :
    parse_bet (fun _ => false) (fun _ => none) "Nuggets -3.5 2u" = none :=
  (parse_failure_and_result_sign (fun _ => false) (fun _ => none) "Nuggets -3.5 2u").1.mpr
    (Or.inr (by decide))

/-- C8 (failing input): the line "win -3.5u" carries only a stake token
"-3.5u" adjacent to the unit suffix, yet the detector classifies it as
a spread — the pattern backtracks across the decimal point and captures
"-3", so the posted line is even reported as -3.0 rather than -3.5,
contrary to the source's own comment ("Avoid units like 1u by ensuring
no u right after number") and the specified anchoring rule. -/
theorem spread_detection_unit_suffix_bug :
    detect_bet_type_and_line "win -3.5u" = ("spread", some (-3), some "fav") := by decide

/-- C6 (counterexample): for the concrete bet "Lakers ML win 2u" on
2026-01-01 with sport `basketball` and bet type `moneyline`, the key
built by the reconciliation pass of clv.py differs from the Event Key
Builder's key (`...|Lakers ML win 2u` against `...|lakers ml win`). -/
theorem clv_scheduler_key_not_builder_key :
    clvEventKey "Lakers ML win 2u" (some "basketball") ⟨2026, 1, 1⟩ (some "moneyline") ≠
      build_event_key "Lakers ML win 2u" (some "basketball") ⟨2026, 1, 1⟩ (some "moneyline") := by
  decide

/-- C6 (amended): the scheduler's key-construction path computes
`sport|date|bet_type|` followed by the first 50 characters of the raw
text instead of calling the Event Key Builder; for non-empty sport and
bet-type strings the two keys coincide exactly when those 50 characters
equal the builder's teams token. -/
theorem clv_scheduler_key_shape (bet_text : String) (sp bt : String)
    (hs : sp ≠ "") (hb : bt ≠ "") (d : PyDate) :
    clvEventKey bet_text (some sp) d (some bt) = build_event_key bet_text (some sp) d (some bt) ↔
      (⟨bet_text.data.take 50⟩ : String) = extract_teams_key bet_text := by
  rw [clvEventKey, build_event_key, pyFormatOpt, pyFormatOpt, pyOrUnknown, pyOrUnknown,
    if_neg hs, if_neg hb]
  constructor
  · intro h
    exact str_append_left_cancel h
  · intro h
    rw [h]

/-- Witness for C6's amended theorem: with sport `nba` and bet type
`total`, the text "xy" has teams token `unknown`, which differs from its
own first 50 characters, so the two keys differ. -/
theorem clv_scheduler_key_shape_witness :
    clvEventKey "xy" (some "nba") ⟨2026, 2, 3⟩ (some "total") =
        build_event_key "xy" (some "nba") ⟨2026, 2, 3⟩ (some "total") ↔
      (⟨("xy" : String).data.take 50⟩ : String) = extract_teams_key "xy" :=
  clv_scheduler_key_shape "xy" "nba" "total" (by decide) (by decide) ⟨2026, 2, 3⟩

/-- C3: in the fuzzy regime (the exact lookup yields no usable
snapshot), a best candidate with `overlap_score` 0 is never
auto-accepted — the cache is unchanged and no `Matched` is returned —
while a best candidate with `overlap_score ≥ 1` triggers auto-match:
the resolver returns `Matched` with the candidate's data and persists a
new snapshot under the query's own event key (cache write-through). -/
theorem matcher_threshold (cache : List ClosingRow) (g : ℤ) (qk : String) (now : ℕ)
    (hexact : ∀ r, mostRecentClosing cache g qk = some r →
        r.closing_line = none ∧ r.closing_odds = none) :
    (∀ sc r, bestCandidate cache g qk = some (sc, r) → sc = 0 →
        (resolve cache g qk now).2 = cache ∧
        ∀ cl co src, (resolve cache g qk now).1 ≠ MatchResult.Matched cl co src) ∧
    (∀ sc r, bestCandidate cache g qk = some (sc, r) → 1 ≤ sc →
        (resolve cache g qk now).1 =
          MatchResult.Matched r.closing_line r.closing_odds r.source ∧
        (resolve cache g qk now).2 =
          cache ++ [⟨g, qk, r.closing_line, r.closing_odds, r.source, now⟩]) := by
  have hres : resolve cache g qk now = fuzzyResolve cache g qk now := by
    rw [resolve]
    rcases hmr : mostRecentClosing cache g qk with _ | r
    · rfl
    · obtain ⟨h1, h2⟩ := hexact r hmr
      simp [h1, h2]
  constructor
  · intro sc r hb hsc
    subst hsc
    rw [hres, fuzzyResolve, hb]
    simp only []
    rw [if_neg (by decide)]
    exact ⟨rfl, fun cl co src => by simp⟩
  · intro sc r hb hsc
    rw [hres, fuzzyResolve, hb]
    simp only []
    rw [if_pos hsc]
    exact ⟨rfl, rfl⟩

/-- Witness for C3: a cached total snapshot for a Celtics-Lakers key
shares the token `lakers` with a Lakers-Warriors query (score 1), so
the resolver auto-matches and writes the snapshot through under the
query's key. -/
theorem matcher_threshold_witness :
    (resolve [⟨1, "nba|2026-01-01|total|celtics|lakers", some 5, none, "consensus", 0⟩]
        1 "nba|2026-01-01|total|lakers|warriors" 7).1 =
      MatchResult.Matched (some 5) none "consensus" ∧
    (resolve [⟨1, "nba|2026-01-01|total|celtics|lakers", some 5, none, "consensus", 0⟩]
        1 "nba|2026-01-01|total|lakers|warriors" 7).2 =
      [⟨1, "nba|2026-01-01|total|celtics|lakers", some 5, none, "consensus", 0⟩] ++
        [⟨1, "nba|2026-01-01|total|lakers|warriors", some 5, none, "consensus", 7⟩] :=
  (matcher_threshold [⟨1, "nba|2026-01-01|total|celtics|lakers", some 5, none, "consensus", 0⟩]
      1 "nba|2026-01-01|total|lakers|warriors" 7
      (fun r hr => by
        rw [show mostRecentClosing
            [⟨1, "nba|2026-01-01|total|celtics|lakers", some 5, none, "consensus", 0⟩]
            1 "nba|2026-01-01|total|lakers|warriors" = none by decide] at hr
        exact absurd hr (by simp))).2
    1 ⟨1, "nba|2026-01-01|total|celtics|lakers", some 5, none, "consensus", 0⟩
    (by decide) (by decide)

/-- `pySortedSet` depends only on the membership of its input: both
results are sorted duplicate-free lists enumerating the same set. -/
theorem pySortedSet_ext (l1 l2 : List (List Char))
    (h : ∀ x, x ∈ l1 ↔ x ∈ l2) : pySortedSet l1 = pySortedSet l2 := by
  have hd : List.Perm l1.dedup l2.dedup := by
    rw [List.perm_ext_iff_of_nodup (List.nodup_dedup l1) (List.nodup_dedup l2)]
    intro a
    rw [List.mem_dedup, List.mem_dedup]
    exact h a
  have hp : List.Perm (pySortedSet l1) (pySortedSet l2) :=
    ((List.perm_insertionSort (fun a b => a ≤ b) l1.dedup).trans hd).trans
      (List.perm_insertionSort (fun a b => a ≤ b) l2.dedup).symm
  exact List.eq_of_perm_of_sorted hp
    (List.sorted_insertionSort (fun a b => a ≤ b) l1.dedup)
    (List.sorted_insertionSort (fun a b => a ≤ b) l2.dedup)

/-- C4: the event key depends only on the set of kept participant
tokens of the raw text — the tokens are cleaned, stop-word-filtered,
deduplicated and sorted — so reordering the participant mentions of the
text while preserving the token set yields the identical key. -/
theorem event_key_order_independent (t1 t2 : String) (sport : Option String) (d : PyDate)
    (bt : Option String) (hset : ∀ tok, tok ∈ keptTeams t1 ↔ tok ∈ keptTeams t2) :
    build_event_key t1 sport d bt = build_event_key t2 sport d bt := by
  have hk : extract_teams_key t1 = extract_teams_key t2 := by
    rw [extract_teams_key, extract_teams_key, pySortedSet_ext (keptTeams t1) (keptTeams t2) hset]
  rw [build_event_key, build_event_key, hk]

/-- Witness for C4: swapping the two comma-separated team mentions
preserves the kept token set, so the keys agree. -/
theorem event_key_order_independent_witness :
    build_event_key "Lakers, Celtics, win" (some "nba") ⟨2026, 1, 1⟩ (some "total") =
      build_event_key "Celtics, Lakers, win" (some "nba") ⟨2026, 1, 1⟩ (some "total") :=
  event_key_order_independent "Lakers, Celtics, win" "Celtics, Lakers, win"
    (some "nba") ⟨2026, 1, 1⟩ (some "total")
    (fun tok => by
      rw [show keptTeams "Lakers, Celtics, win" =
            [['l','a','k','e','r','s'], ['c','e','l','t','i','c','s'], ['w','i','n']] by decide,
          show keptTeams "Celtics, Lakers, win" =
            [['c','e','l','t','i','c','s'], ['l','a','k','e','r','s'], ['w','i','n']] by decide]
      simp only [List.mem_cons, List.not_mem_nil, or_false]
      tauto)

/-- `applyAcc` never touches the bet id. -/
theorem applyAcc_id (acc : Option (Option ℚ × Option String)) (b : BetRow) :
    (applyAcc acc b).id = b.id := by
  cases acc <;> rfl

/-- A closing write overwrites any previous optional write. -/
theorem setCl_applyAcc (p : Option ℚ × Option String)
    (acc : Option (Option ℚ × Option String)) (b : BetRow) :
    setCl p (applyAcc acc b) = setCl p b := by
  cases acc <;> rfl

/-- One step of `lastWFrom`. -/
theorem lastWFrom_cons (closings : List ClosingRow) (g : ℤ) (i : ℕ)
    (acc : Option (Option ℚ × Option String)) (t : BetKeyData) (ts : List BetKeyData) :
    lastWFrom closings g i acc (t :: ts) =
      lastWFrom closings g i
        (match clvUpdate closings g t with
         | some p => if t.id = i then some p else acc
         | none => acc) ts := rfl

/-- The loop's composite effect on one row is its last matching write
applied to the row. -/
theorem chainB_applyAcc (closings : List ClosingRow) (g : ℤ) :
    ∀ (ts : List BetKeyData) (acc : Option (Option ℚ × Option String)) (b : BetRow),
      chainB closings g ts (applyAcc acc b) =
        applyAcc (lastWFrom closings g b.id acc ts) b := by
  intro ts
  induction ts with
  | nil => intro acc b; rfl
  | cons t ts ih =>
      intro acc b
      show chainB closings g ts (stepB closings g t (applyAcc acc b)) =
        applyAcc (lastWFrom closings g b.id acc (t :: ts)) b
      rw [lastWFrom_cons]
      rcases hu : clvUpdate closings g t with _ | p <;> simp only [hu]
      · have hstep : stepB closings g t (applyAcc acc b) = applyAcc acc b := by
          simp only [stepB, hu]
        rw [hstep, ih acc b]
      · by_cases hid : t.id = b.id
        · have hcond : (applyAcc acc b).id = t.id := by rw [applyAcc_id]; exact hid.symm
          have hstep : stepB closings g t (applyAcc acc b) = setCl p (applyAcc acc b) := by
            simp only [stepB, hu]
            rw [if_pos hcond]
          rw [hstep, setCl_applyAcc]
          rw [if_pos hid]
          exact ih (some p) b
        · have hcond : ¬ (applyAcc acc b).id = t.id := by
            rw [applyAcc_id]; exact fun hh => hid hh.symm
          have hstep : stepB closings g t (applyAcc acc b) = applyAcc acc b := by
            simp only [stepB, hu]
            rw [if_neg hcond]
          rw [hstep, if_neg hid]
          exact ih acc b

/-- The loop's composite effect on one row, closed form. -/
theorem chainB_eq (closings : List ClosingRow) (g : ℤ) (ts : List BetKeyData) (b : BetRow) :
    chainB closings g ts b = applyAcc (lastWFrom closings g b.id none ts) b :=
  chainB_applyAcc closings g ts none b

/-- Threading an already-computed last write through the sequence again
changes nothing. -/
theorem lastWFrom_absorb (closings : List ClosingRow) (g : ℤ) (i : ℕ) :
    ∀ (ts : List BetKeyData) (acc : Option (Option ℚ × Option String)),
      lastWFrom closings g i acc ts =
        match lastWFrom closings g i none ts with
        | some p => some p
        | none => acc := by
  intro ts
  induction ts with
  | nil => intro acc; rfl
  | cons t ts ih =>
      intro acc
      rw [lastWFrom_cons, lastWFrom_cons]
      rcases hu : clvUpdate closings g t with _ | p <;> simp only [hu]
      · exact ih acc
      · by_cases hid : t.id = i
        · rw [if_pos hid, if_pos hid, ih (some p)]
          rcases lastWFrom closings g i none ts with _ | q <;> rfl
        · rw [if_neg hid, if_neg hid]
          exact ih acc

/-- Applying the loop's composite effect twice to a row equals applying
it once. -/
theorem chainB_idem (closings : List ClosingRow) (g : ℤ) (ts : List BetKeyData) (b : BetRow) :
    chainB closings g ts (chainB closings g ts b) = chainB closings g ts b := by
  rcases hw : lastWFrom closings g b.id none ts with _ | p
  · have h1 : chainB closings g ts b = b := by
      rw [chainB_eq, hw]; rfl
    rw [h1, h1]
  · have h1 : chainB closings g ts b = setCl p b := by
      rw [chainB_eq, hw]; rfl
    have h2 : chainB closings g ts (setCl p b) = setCl p b := by
      have h3 := chainB_applyAcc closings g ts (some p) b
      rw [lastWFrom_absorb, hw] at h3
      exact h3
    rw [h1, h2]

/-- The loop's composite effect preserves every column other than the
closing columns. -/
theorem chainB_preserves (closings : List ClosingRow) (g : ℤ) (ts : List BetKeyData)
    (b : BetRow) :
    (chainB closings g ts b).id = b.id ∧ (chainB closings g ts b).guild_id = b.guild_id ∧
    (chainB closings g ts b).bet_text = b.bet_text ∧ (chainB closings g ts b).sport = b.sport ∧
    (chainB closings g ts b).bet_type = b.bet_type ∧ (chainB closings g ts b).date = b.date := by
  rw [chainB_eq]
  rcases lastWFrom closings g b.id none ts with _ | p <;> simp [applyAcc, setCl]

/-- One resolution attempt of the pass, as a map over the bets table
together with the hit flag. -/
theorem try_update_eq (closings : List ClosingRow) (g : ℤ) (t : BetKeyData)
    (bets : List BetRow) :
    try_update_bet_with_closing t.id g t.bet_text t.sport t.bet_type t.date closings bets =
      (bets.map (stepB closings g t), (clvUpdate closings g t).isSome) := by
  have hu0 : closingLookup closings g (clvEventKey t.bet_text t.sport t.date t.bet_type) =
      clvUpdate closings g t := rfl
  simp only [try_update_bet_with_closing, hu0]
  rcases hu : clvUpdate closings g t with _ | p <;> simp only [hu, Option.isSome]
  · have hs : stepB closings g t = fun b => b := by
      funext b
      simp [stepB, hu]
    rw [hs, List.map_id']
  · have hs : (fun b : BetRow =>
        if b.id = t.id then { b with closing_line := p.1, closing_odds := p.2 } else b) =
        stepB closings g t := by
      funext b
      simp [stepB, hu, setCl]
    rw [hs]

/-- The bets table after the loop: every row mapped through the
composite effect. -/
theorem runAux_fst (closings : List ClosingRow) (g : ℤ) :
    ∀ (ts : List BetKeyData) (bets : List BetRow) (n : ℕ),
      (runAux closings g ts (bets, n)).1 = bets.map (chainB closings g ts) := by
  intro ts
  induction ts with
  | nil =>
      intro bets n
      show bets = bets.map (chainB closings g [])
      have : chainB closings g [] = fun b => b := rfl
      rw [this, List.map_id']
  | cons t ts ih =>
      intro bets n
      rw [runAux, try_update_eq]
      rw [ih]
      rw [List.map_map]
      rfl

/-- The updated counter after the loop: the number of snapshotted rows
whose lookup hits, independent of the bets table. -/
theorem runAux_snd (closings : List ClosingRow) (g : ℤ) :
    ∀ (ts : List BetKeyData) (bets : List BetRow) (n : ℕ),
      (runAux closings g ts (bets, n)).2 =
        n + ts.countP (fun t => (clvUpdate closings g t).isSome) := by
  intro ts
  induction ts with
  | nil => intro bets n; simp [runAux]
  | cons t ts ih =>
      intro bets n
      rw [runAux, try_update_eq]
      rw [ih]
      rw [List.countP_cons]
      rcases hu : clvUpdate closings g t with _ | p
      · simp [hu]
      · simp [hu]
        omega

/-- The pass's SELECT reads only columns the pass never writes, so the
snapshotted targets of a mapped table are unchanged. -/
theorem betTargets_map_chain (closings : List ClosingRow) (g : ℤ) (ts : List BetKeyData)
    (bets : List BetRow) :
    betTargets g (bets.map (chainB closings g ts)) = betTargets g bets := by
  rw [betTargets, betTargets, List.filter_map]
  have hfil : ((fun b : BetRow => b.guild_id == g) ∘ chainB closings g ts) =
      fun b : BetRow => b.guild_id == g := by
    funext b
    simp only [Function.comp]
    rw [(chainB_preserves closings g ts b).2.1]
  rw [hfil, List.map_map]
  have hproj : ((fun b : BetRow => (⟨b.id, b.bet_text, b.sport, b.bet_type, b.date⟩ :
      BetKeyData)) ∘ chainB closings g ts) =
      fun b : BetRow => (⟨b.id, b.bet_text, b.sport, b.bet_type, b.date⟩ : BetKeyData) := by
    funext b
    obtain ⟨h1, h2, h3, h4, h5, h6⟩ := chainB_preserves closings g ts b
    simp only [Function.comp]
    rw [h1, h3, h4, h5, h6]
  rw [hproj]

/-- C5: running the reconciliation pass a second time on the state the
first run produced, with the same closings, returns the identical
updated table and the identical updated count: the second run is a
no-op on the state and no matches are double-counted. -/
theorem reconciliation_idempotent (closings : List ClosingRow) (g : ℤ) (bets : List BetRow) :
    run_updateclv_for_guild closings g (run_updateclv_for_guild closings g bets).1 =
      run_updateclv_for_guild closings g bets := by
  rw [run_updateclv_for_guild, run_updateclv_for_guild,
    runAux_fst closings g (betTargets g bets) bets 0, betTargets_map_chain]
  rw [Prod.ext_iff]
  constructor
  · rw [runAux_fst, runAux_fst, List.map_map]
    have : chainB closings g (betTargets g bets) ∘ chainB closings g (betTargets g bets) =
        chainB closings g (betTargets g bets) := by
      funext b
      exact chainB_idem closings g (betTargets g bets) b
    rw [this]
  · rw [runAux_snd, runAux_snd]

/-- A Python whitespace character is one of the six listed. -/
theorem pySpace_cases (c : Char) (h : isPySpace c = true) :
    c = ' ' ∨ c = '\t' ∨ c = '\n' ∨ c = '\r' ∨ c = '\x0b' ∨ c = '\x0c' := by
  simp only [isPySpace, Bool.or_eq_true, beq_iff_eq] at h
  tauto

/-- Whitespace is not a digit. -/
theorem pySpace_not_digit (c : Char) (h : isPySpace c = true) : ¬ isDigitCh c = true := by
  rcases pySpace_cases c h with h1 | h1 | h1 | h1 | h1 | h1 <;> subst h1 <;> decide

/-- Whitespace is not the dot. -/
theorem pySpace_ne_dot (c : Char) (h : isPySpace c = true) : ¬ c = '.' := by
  rcases pySpace_cases c h with h1 | h1 | h1 | h1 | h1 | h1 <;> subst h1 <;> decide

/-- `takeWhile` passes over an all-true prefix. -/
theorem takeWhile_append_all {p : Char → Bool} :
    ∀ {l1 l2 : List Char}, (∀ c ∈ l1, p c = true) →
      (l1 ++ l2).takeWhile p = l1 ++ l2.takeWhile p := by
  intro l1
  induction l1 with
  | nil => intro l2 _; rfl
  | cons c l ih =>
      intro l2 h
      rw [List.cons_append, List.takeWhile_cons_of_pos (h c (by simp)), List.cons_append,
        ih (fun x hx => h x (by simp [hx]))]

/-- `dropWhile` passes over an all-true prefix. -/
theorem dropWhile_append_all {p : Char → Bool} :
    ∀ {l1 l2 : List Char}, (∀ c ∈ l1, p c = true) →
      (l1 ++ l2).dropWhile p = l2.dropWhile p := by
  intro l1
  induction l1 with
  | nil => intro l2 _; rfl
  | cons c l ih =>
      intro l2 h
      rw [List.cons_append, List.dropWhile_cons_of_pos (h c (by simp)),
        ih (fun x hx => h x (by simp [hx]))]

/-- A nonempty character list is not `isEmpty`. -/
theorem ne_nil_isEmpty {l : List Char} (h : l ≠ []) : l.isEmpty = false := by
  cases l with
  | nil => exact absurd rfl h
  | cons c cs => rfl

/-- The whitespace-then-u tail of the units pattern starts with a
non-digit, so a digit run neither enters nor crosses it. -/
theorem wsu_digits (ws rest : List Char) (hws : ∀ c ∈ ws, isPySpace c = true) :
    (ws ++ 'u' :: rest).takeWhile isDigitCh = [] ∧
    (ws ++ 'u' :: rest).dropWhile isDigitCh = ws ++ 'u' :: rest := by
  cases ws with
  | nil =>
      exact ⟨List.takeWhile_cons_of_neg (by decide), List.dropWhile_cons_of_neg (by decide)⟩
  | cons w ws2 =>
      have hw := pySpace_not_digit w (hws w (by simp))
      rw [List.cons_append]
      exact ⟨List.takeWhile_cons_of_neg hw, List.dropWhile_cons_of_neg hw⟩

/-- Whitespace before the unit marker is skipped entirely. -/
theorem wsu_spaces (ws rest : List Char) (hws : ∀ c ∈ ws, isPySpace c = true) :
    (ws ++ 'u' :: rest).dropWhile isPySpace = 'u' :: rest := by
  rw [dropWhile_append_all hws, List.dropWhile_cons_of_neg (by decide)]

/-- Completeness core: the units matcher succeeds at the head of any
list shaped as the units pattern, with the pattern's value. -/
theorem unitsMatchAt_shape (ds fdigits ws rest : List Char)
    (hne : ds ≠ []) (hds : ∀ c ∈ ds, isDigitCh c = true)
    (hfd : ∀ c ∈ fdigits, isDigitCh c = true) (hws : ∀ c ∈ ws, isPySpace c = true) :
    unitsMatchAt (ds ++ ((if fdigits = [] then [] else '.' :: fdigits) ++ (ws ++ 'u' :: rest))) =
      some (ratOfParts ds fdigits) := by
  by_cases hf : fdigits = []
  · subst hf
    rw [if_pos rfl, List.nil_append]
    have ht : (ds ++ (ws ++ 'u' :: rest)).takeWhile isDigitCh = ds := by
      rw [takeWhile_append_all hds, (wsu_digits ws rest hws).1, List.append_nil]
    have hd : (ds ++ (ws ++ 'u' :: rest)).dropWhile isDigitCh = ws ++ 'u' :: rest := by
      rw [dropWhile_append_all hds, (wsu_digits ws rest hws).2]
    simp only [unitsMatchAt, ht, hd, ne_nil_isEmpty hne, Bool.false_eq_true, if_false]
    cases ws with
    | nil => simp [List.dropWhile_cons_of_neg (by decide : ¬ isPySpace 'u' = true)]
    | cons w ws2 =>
        have hw := hws w (by simp)
        have hsk : (w :: ws2 ++ 'u' :: rest).dropWhile isPySpace = 'u' :: rest :=
          wsu_spaces (w :: ws2) rest hws
        rw [List.cons_append] at hsk ⊢
        simp only []
        rw [if_neg (pySpace_ne_dot w hw)]
        simp [hsk]
  · rw [if_neg hf, List.cons_append]
    have ht : (ds ++ '.' :: (fdigits ++ (ws ++ 'u' :: rest))).takeWhile isDigitCh = ds := by
      rw [takeWhile_append_all hds,
        List.takeWhile_cons_of_neg (by decide : ¬ isDigitCh '.' = true), List.append_nil]
    have hd : (ds ++ '.' :: (fdigits ++ (ws ++ 'u' :: rest))).dropWhile isDigitCh =
        '.' :: (fdigits ++ (ws ++ 'u' :: rest)) := by
      rw [dropWhile_append_all hds,
        List.dropWhile_cons_of_neg (by decide : ¬ isDigitCh '.' = true)]
    have hfd2 : (fdigits ++ (ws ++ 'u' :: rest)).takeWhile isDigitCh = fdigits := by
      rw [takeWhile_append_all hfd, (wsu_digits ws rest hws).1, List.append_nil]
    have hfd3 : (fdigits ++ (ws ++ 'u' :: rest)).dropWhile isDigitCh = ws ++ 'u' :: rest := by
      rw [dropWhile_append_all hfd, (wsu_digits ws rest hws).2]
    simp only [unitsMatchAt, ht, hd, ne_nil_isEmpty hne, Bool.false_eq_true, if_false, if_true]
    simp [hfd2, hfd3, ne_nil_isEmpty hf, wsu_spaces ws rest hws]

/-- A successful head match makes every extension of the search
succeed. -/
theorem unitsSearch_not_none (pre cs : List Char) (v : ℚ) (h : unitsMatchAt cs = some v) :
    unitsSearch (pre ++ cs) ≠ none := by
  induction pre with
  | nil =>
      cases cs with
      | nil => exact absurd h (by simp [unitsMatchAt])
      | cons c cs2 =>
          rw [List.nil_append, unitsSearch, h]
          simp
  | cons p pre ih =>
      rw [List.cons_append, unitsSearch]
      rcases hm : unitsMatchAt (p :: (pre ++ cs)) with _ | w
      · exact ih
      · simp

/-- Soundness of the units matcher at the head: a successful match
exhibits the units pattern with an empty prefix. -/
theorem unitsMatchAt_sound {cs : List Char} {v : ℚ} (h : unitsMatchAt cs = some v) :
    ∃ ds fdigits ws rest : List Char, ds ≠ [] ∧ (∀ c ∈ ds, isDigitCh c = true) ∧
      (∀ c ∈ fdigits, isDigitCh c = true) ∧ (∀ c ∈ ws, isPySpace c = true) ∧
      cs = ds ++ ((if fdigits = [] then [] else '.' :: fdigits) ++ (ws ++ 'u' :: rest)) ∧
      v = ratOfParts ds fdigits := by
  simp only [unitsMatchAt] at h
  by_cases hD : (cs.takeWhile isDigitCh).isEmpty = true
  · rw [if_pos hD] at h
    exact absurd h (by simp)
  rw [if_neg hD] at h
  have hDne : cs.takeWhile isDigitCh ≠ [] := by
    intro he
    rw [he] at hD
    exact hD rfl
  have hDdig : ∀ c ∈ cs.takeWhile isDigitCh, isDigitCh c = true :=
    fun c hc => List.mem_takeWhile_imp hc
  have hsplit : cs = cs.takeWhile isDigitCh ++ cs.dropWhile isDigitCh :=
    (List.takeWhile_append_dropWhile isDigitCh cs).symm
  rcases hR : cs.dropWhile isDigitCh with _ | ⟨c, u⟩
  · rw [hR] at h
    exact absurd h (by simp)
  rw [hR] at h hsplit
  by_cases hc : c = '.'
  · subst hc
    simp only [if_pos rfl] at h
    have hfall : (('.' :: u).dropWhile isPySpace) = '.' :: u :=
      List.dropWhile_cons_of_neg (by decide)
    by_cases hfdE : (u.takeWhile isDigitCh).isEmpty = true
    · rw [if_pos hfdE] at h
      rw [hfall] at h
      simp at h
    rw [if_neg hfdE] at h
    have hfdne : u.takeWhile isDigitCh ≠ [] := by
      intro he
      rw [he] at hfdE
      exact hfdE rfl
    rcases hQ : (u.dropWhile isDigitCh).dropWhile isPySpace with _ | ⟨c2, tail⟩
    · rw [hQ, hfall] at h
      simp at h
    rw [hQ] at h
    by_cases hc2 : c2 = 'u'
    · subst hc2
      simp only [if_true, ite_true, Option.some.injEq] at h
      refine ⟨cs.takeWhile isDigitCh, u.takeWhile isDigitCh,
        (u.dropWhile isDigitCh).takeWhile isPySpace, tail, hDne, hDdig,
        fun x hx => List.mem_takeWhile_imp hx, fun x hx => List.mem_takeWhile_imp hx, ?_, h.symm⟩
      rw [if_neg hfdne, List.cons_append]
      conv_lhs => rw [hsplit]
      congr 2
      rw [← hQ, List.takeWhile_append_dropWhile, List.takeWhile_append_dropWhile]
    · simp only [if_true, ite_true, if_neg hc2] at h
      simp [hfall] at h
  · simp only [if_neg hc] at h
    rcases hQ : ((c :: u).dropWhile isPySpace) with _ | ⟨c2, tail⟩
    · rw [hQ] at h
      simp at h
    rw [hQ] at h
    by_cases hc2 : c2 = 'u'
    · subst hc2
      simp only [if_true, ite_true, Option.some.injEq] at h
      refine ⟨cs.takeWhile isDigitCh, [], (c :: u).takeWhile isPySpace, tail, hDne, hDdig,
        by simp, fun x hx => List.mem_takeWhile_imp hx, ?_, h.symm⟩
      rw [if_pos rfl, List.nil_append]
      conv_lhs => rw [hsplit]
      congr 1
      rw [← hQ]
      exact (List.takeWhile_append_dropWhile isPySpace (c :: u)).symm
    · simp only [if_neg hc2] at h
      simp at h

/-- Soundness of the units search: a found stake exhibits the units
pattern somewhere in the line. -/
theorem unitsSearch_sound : ∀ (cs : List Char) (v : ℚ), unitsSearch cs = some v →
    HasUnitsPattern cs v := by
  intro cs
  induction cs with
  | nil => intro v h; exact absurd h (by simp [unitsSearch])
  | cons c cs2 ih =>
      intro v h
      rw [unitsSearch] at h
      rcases hm : unitsMatchAt (c :: cs2) with _ | w
      · rw [hm] at h
        obtain ⟨pre, ds, fd, ws, rest, h1, h2, h3, h4, h5, h6⟩ := ih v h
        exact ⟨c :: pre, ds, fd, ws, rest, h1, h2, h3, h4,
          by rw [List.cons_append, ← h5], h6⟩
      · rw [hm] at h
        simp only [Option.some.injEq] at h
        subst h
        obtain ⟨ds, fd, ws, rest, h1, h2, h3, h4, h5, h6⟩ := unitsMatchAt_sound hm
        exact ⟨[], ds, fd, ws, rest, h1, h2, h3, h4, by rw [List.nil_append]; exact h5, h6⟩

/-- Completeness of the units search: a failed search means the line
holds the units pattern nowhere. -/
theorem unitsSearch_none_no_pattern (cs : List Char) (h : unitsSearch cs = none) :
    ∀ v, ¬ HasUnitsPattern cs v := by
  intro v hv
  obtain ⟨pre, ds, fd, ws, rest, h1, h2, h3, h4, h5, h6⟩ := hv
  have hm := unitsMatchAt_shape ds fd ws rest h1 h2 h3 h4
  have hne := unitsSearch_not_none pre _ _ hm
  rw [← h5] at hne
  exact hne h

/-- The stake field of a parsed bet is the units search result with
default 1. -/
theorem parse_bet_units (ie : Char → Bool) (ce : Char → Option String) (line : String)
    (pb : ParsedBet) (h : parse_bet ie ce line = some pb) :
    pb.units = (unitsSearch (pyLower (pyStrip line)).data).getD 1 := by
  by_cases hl : pyStrip line = ""
  · rw [show parse_bet ie ce line = none by simp [parse_bet, hl]] at h
    exact absurd h (by simp)
  · have hred := parse_bet_reduce ie ce line hl
    rcases classify_line_cases ie ce (pyStrip line)
        ((unitsSearch (pyLower (pyStrip line)).data).getD 1) with hc | hc | hc | hc <;>
      rw [hc] at hred <;> simp only at hred <;> rw [hred] at h
    · exact absurd h (by simp)
    all_goals
      simp only [Option.some.injEq] at h
      subst h
      rfl

/-- C7 (counterexample): the line "win 2 under 3" has no decimal with
the unit marker anchored directly after its digits (the claim's stake
rule), so by the claim its stake must default to 1.0; the parser
nevertheless sets the stake to 2, capturing the '2' across the
whitespace before 'under'. -/
theorem parse_stake_claim_false :
    parse_bet (fun _ => false) (fun _ => none) "win 2 under 3" =
      some ⟨2, none, "win", 2, none, "total", some 3, some "under"⟩ ∧
    anchoredUnitsSearch (pyLower (pyStrip "win 2 under 3")).data = none ∧
    (2 : ℚ) ≠ 1 := by
  refine ⟨by decide, by decide, by decide⟩

/-- C7 (amended): the parsed stake is taken from a decimal number
followed by optional whitespace and then the letter `u`, the number
itself carrying no sign; a line whose lowered text holds no such
pattern keeps the default stake of 1.0. -/
theorem parse_stake_amended (ie : Char → Bool) (ce : Char → Option String) (line : String)
    (pb : ParsedBet) (h : parse_bet ie ce line = some pb) :
    HasUnitsPattern (pyLower (pyStrip line)).data pb.units ∨
    (pb.units = 1 ∧ ∀ v, ¬ HasUnitsPattern (pyLower (pyStrip line)).data v) := by
  have hu := parse_bet_units ie ce line pb h
  rcases hs : unitsSearch (pyLower (pyStrip line)).data with _ | v
  · right
    rw [hs] at hu
    exact ⟨hu, unitsSearch_none_no_pattern _ hs⟩
  · left
    rw [hs] at hu
    simp only [Option.getD_some] at hu
    rw [hu]
    exact unitsSearch_sound _ v hs

/-- Witness for C7's amended theorem at the line "2u win", whose stake
2 comes from the anchored pattern "2u". -/
theorem parse_stake_amended_witness :
    HasUnitsPattern (pyLower (pyStrip "2u win")).data
        ((⟨2, none, "win", 2, none, "unknown", none, none⟩ : ParsedBet).units) ∨
      ((⟨2, none, "win", 2, none, "unknown", none, none⟩ : ParsedBet).units = 1 ∧
        ∀ v, ¬ HasUnitsPattern (pyLower (pyStrip "2u win")).data v) :=
  parse_stake_amended (fun _ => false) (fun _ => none) "2u win"
    ⟨2, none, "win", 2, none, "unknown", none, none⟩ (by decide)

end RecordKeeper
